import Mathlib

/-!
Verification development for the Mississippi Timber Price Report app
(`app.py`): a shallow embedding of its filter-and-projection pipeline,
selection/reset state handling, chart rendering decisions, tick thinning,
CSV export, and data-load edge cases, together with theorems settling the
specification's claims about them.

Conventions of the embedding:
* A pandas cell that may be NaN is an `Option`.
* `Year` is modelled after line 45 (`pd.to_numeric(..., errors="coerce")`)
  as `Option Int`; a NaN year fails every `≥`/`≤` comparison, which the
  filter's `match` on `Option` reproduces.
* `Type` is modelled after line 55 (`pd.Categorical(..., categories:=type_order)`)
  as `Option String`: values outside the five categories become NaN (`none`).
* Python strings compare by code point; `strLe` below implements exactly
  that on `List Char` (Lean `Char` is a unicode code point), and
  `pySortStrings` models Python's `sorted` on strings.
* Prices are decimal numerals as read from the CSV, modelled by `Dec`
  (mantissa and decimal-point position), which renders/parses exactly.
-/

/-- Python string comparison `a <= b`: lexicographic on code points. -/
def strLeChars : List Char → List Char → Bool
  | [], _ => true
  | _ :: _, [] => false
  | a :: as, b :: bs =>
    if a.toNat < b.toNat then true
    else if a.toNat = b.toNat then strLeChars as bs
    else false

/-- Python `a <= b` on strings. -/
def strLe (a b : String) : Bool :=
  strLeChars a.data b.data

/-- The proposition form of `strLe`, used as the sorting relation. -/
def StrLe (a b : String) : Prop := strLe a b = true

instance : DecidableRel StrLe := fun a b =>
  Bool.decEq (strLe a b) true

theorem strLeChars_total (a b : List Char) :
    strLeChars a b = true ∨ strLeChars b a = true := by
  induction a generalizing b with
  | nil => left; rfl
  | cons x xs ih =>
    cases b with
    | nil => right; rfl
    | cons y ys =>
      simp only [strLeChars]
      rcases Nat.lt_trichotomy x.toNat y.toNat with h | h | h
      · left; simp [h]
      · rcases ih ys with h2 | h2
        · left; simp [h, h2]
        · right; simp [h.symm, h2, Nat.lt_irrefl]
      · right; simp [h]

theorem strLeChars_trans {a b c : List Char}
    (hab : strLeChars a b = true) (hbc : strLeChars b c = true) :
    strLeChars a c = true := by
  induction a generalizing b c with
  | nil => rfl
  | cons x xs ih =>
    cases b with
    | nil => simp [strLeChars] at hab
    | cons y ys =>
      cases c with
      | nil => simp [strLeChars] at hbc
      | cons z zs =>
        simp only [strLeChars] at hab hbc ⊢
        by_cases hxy : x.toNat < y.toNat
        · by_cases hyz : y.toNat < z.toNat
          · simp [Nat.lt_trans hxy hyz]
          · simp [hxy] at hab
            by_cases hyz2 : y.toNat = z.toNat
            · simp [hyz2 ▸ hxy]
            · simp [hyz, hyz2] at hbc
        · by_cases hxy2 : x.toNat = y.toNat
          · simp [hxy, hxy2] at hab
            by_cases hyz : y.toNat < z.toNat
            · simp [hxy2 ▸ hyz]
            · by_cases hyz2 : y.toNat = z.toNat
              · simp [hyz, hyz2] at hbc
                simp [hxy2 ▸ hyz, hxy2.trans hyz2, ih hab hbc]
              · simp [hyz, hyz2] at hbc
          · simp [hxy, hxy2] at hab

theorem strLeChars_refl (a : List Char) : strLeChars a a = true := by
  induction a with
  | nil => rfl
  | cons x xs ih => simp [strLeChars, ih]

instance : IsTotal String StrLe :=
  ⟨fun a b => strLeChars_total a.data b.data⟩

instance : IsTrans String StrLe :=
  ⟨fun _ _ _ hab hbc => strLeChars_trans hab hbc⟩

instance : IsRefl String StrLe :=
  ⟨fun a => strLeChars_refl a.data⟩

/-- Python's `sorted` on a list of strings (ascending code-point order).
Python uses a stable mergesort; on the duplicate-free lists it is applied
to here, any sort producing an ascending arrangement agrees with it, so we
model it with insertion sort, whose ordering lemmas Mathlib provides. -/
def pySortStrings (l : List String) : List String :=
  List.insertionSort StrLe l

/-- `type_order` from app.py lines 48-54: the fixed plotting order of the
five product categories. -/
def type_order : List String :=
  ["Pine Sawtimber",
   "Mixed Hardwood Sawtimber",
   "Pine Chip-n-Saw",
   "Pine Pulpwood",
   "Hardwood Pulpwood"]

/-- A decimal numeral as it appears in a CSV cell: the digits `mant` with
the decimal point `scale` digits from the right (`scale = 0` means no
point), e.g. `⟨105, 1⟩` is `10.5`. Prices are stored this way; rendering
and parsing are exact on this representation. -/
structure Dec where
  mant : Int
  scale : Nat
deriving DecidableEq, Repr

/-- One row of the stumpage table, after the load-time coercions of
app.py lines 44-55 (`Year` numeric-or-NaN, `Type` categorical-or-NaN). -/
structure Row where
  type : Option String
  time : String
  year : Option Int
  quarter : String
  minimum : Dec
  average : Dec
  maximum : Dec
deriving DecidableEq, Repr

/-- The loaded DataFrame `stumpage`: its column names and its rows. -/
structure StumpageData where
  cols : List String
  rows : List Row
deriving DecidableEq, Repr

/-- The result of `get_filtered_data` when it is not `None`: the filtered
rows (columns unchanged) plus the ordered categories assigned to the
`Time` column at lines 214-216. -/
structure Frame where
  cols : List String
  rows : List Row
  timeCats : List String
deriving DecidableEq, Repr

/-- The user's Selection: the radio value, the two multiselects, and the
year slider (`none` models `year_range is None`). -/
structure Selection where
  price_selector : String
  selected_types : List String
  selected_quarters : List String
  year_range : Option (Int × Int)
deriving DecidableEq, Repr

/-- The row predicate of the boolean mask at app.py lines 206-211:
`Type.isin(selected_types) & (Year >= yr_min) & (Year <= yr_max) &
Quarter.isin(selected_quarters)`. A NaN `Type` is in no list and a NaN
`Year` fails both comparisons, as in pandas. -/
def rowMatches (sel : Selection) (yr_min yr_max : Int) (r : Row) : Bool :=
  (match r.type with
   | some t => sel.selected_types.contains t
   | none => false) &&
  (match r.year with
   | some y => decide (yr_min ≤ y) && decide (y ≤ yr_max)
   | none => false) &&
  sel.selected_quarters.contains r.quarter

/-- The distinct `Time` labels of the rows in ascending Python-string
order: `sorted(data["Time"].unique())` at line 215. `unique` yields the
distinct values; `dedup` does too, and after sorting a duplicate-free
list the arrangement is the same. -/
def uniqueTimeSorted (rows : List Row) : List String :=
  pySortStrings (rows.map Row.time).dedup

/-- `get_filtered_data` (app.py lines 199-218): `None` when no type or no
quarter is selected or the year range is unset; otherwise the mask-filtered
copy of `stumpage`, with `Time` re-typed as an ordered categorical whose
categories are the sorted distinct labels present. -/
def get_filtered_data (stumpage : StumpageData) (sel : Selection) :
    Option Frame :=
  if sel.selected_types.isEmpty || sel.selected_quarters.isEmpty ||
      sel.year_range.isNone then
    none
  else
    match sel.year_range with
    | none => none
    | some (yr_min, yr_max) =>
      let rows := stumpage.rows.filter (rowMatches sel yr_min yr_max)
      let cats :=
        if stumpage.cols.contains "Time" then uniqueTimeSorted rows else []
      some ⟨stumpage.cols, rows, cats⟩

/-- C2: every row surviving the filter satisfies the three Selection
constraints. -/
theorem filtered_row_matches (stumpage : StumpageData) (sel : Selection)
    (yrp : Int × Int) (frame : Frame)
    (hyr : sel.year_range = some yrp)
    (hout : get_filtered_data stumpage sel = some frame) :
    ∀ r ∈ frame.rows,
      (∃ t, r.type = some t ∧ t ∈ sel.selected_types) ∧
      r.quarter ∈ sel.selected_quarters ∧
      (∃ y, r.year = some y ∧ yrp.1 ≤ y ∧ y ≤ yrp.2) := by
  intro r hr
  unfold get_filtered_data at hout
  split at hout
  · exact absurd hout (by simp)
  · rw [hyr] at hout
    simp only [Option.some.injEq] at hout
    subst hout
    simp only [List.mem_filter] at hr
    obtain ⟨-, hm⟩ := hr
    unfold rowMatches at hm
    simp only [Bool.and_eq_true] at hm
    obtain ⟨⟨ht, hy⟩, hq⟩ := hm
    refine ⟨?_, ?_, ?_⟩
    · cases htype : r.type with
      | none => rw [htype] at ht; cases ht
      | some t =>
        rw [htype] at ht
        exact ⟨t, rfl, by simpa using ht⟩
    · simpa using hq
    · cases hyear : r.year with
      | none => rw [hyear] at hy; cases hy
      | some y =>
        rw [hyear] at hy
        simp only [Bool.and_eq_true, decide_eq_true_eq] at hy
        exact ⟨y, rfl, hy.1, hy.2⟩

/-- Concrete rows used by witnesses and counterexamples below. -/
def rowA : Row :=
  ⟨some "Pine Sawtimber", "2021-Q2", some 2021, "Q2",
   ⟨105, 1⟩, ⟨120, 1⟩, ⟨140, 1⟩⟩

def rowB : Row :=
  ⟨some "Pine Sawtimber", "2021-Q10", some 2021, "Q10",
   ⟨90, 1⟩, ⟨100, 1⟩, ⟨110, 1⟩⟩

def rowC : Row :=
  ⟨some "Pine Pulpwood", "2019-Q1", some 2019, "Q1",
   ⟨975, 2⟩, ⟨105, 1⟩, ⟨120, 1⟩⟩

def rowD : Row :=
  ⟨some "Pine Sawtimber", "2019-Q1", some 2019, "Q1",
   ⟨80, 1⟩, ⟨90, 1⟩, ⟨100, 1⟩⟩

/-- The fixed CSV schema of the stumpage table. -/
def schemaCols : List String :=
  ["Type", "Time", "Year", "Quarter", "Minimum", "Average", "Maximum"]

def stumpageEx : StumpageData :=
  ⟨schemaCols, [rowA, rowB, rowC, rowD]⟩

def selEx : Selection :=
  ⟨"Average", ["Pine Sawtimber"], ["Q1", "Q2", "Q10"], some (2019, 2022)⟩

/-- Witness for C2 at a concrete table and Selection. -/
theorem filtered_row_matches_witness :
    ∃ frame, get_filtered_data stumpageEx selEx = some frame ∧
      ∀ r ∈ frame.rows,
        (∃ t, r.type = some t ∧ t ∈ selEx.selected_types) ∧
        r.quarter ∈ selEx.selected_quarters ∧
        (∃ y, r.year = some y ∧ (2019 : Int) ≤ y ∧ y ≤ 2022) := by
  refine ⟨⟨schemaCols, [rowA, rowB, rowD],
    uniqueTimeSorted [rowA, rowB, rowD]⟩, ?_, ?_⟩
  · decide
  · exact fun r hr =>
      filtered_row_matches stumpageEx selEx (2019, 2022) _ rfl (by decide) r hr

/-- C3: an empty type list, an empty quarter list, or an unset year range
makes `get_filtered_data` return `None`, whatever the table holds. -/
theorem insufficient_selection_none (stumpage : StumpageData)
    (sel : Selection)
    (h : sel.selected_types = [] ∨ sel.selected_quarters = [] ∨
      sel.year_range = none) :
    get_filtered_data stumpage sel = none := by
  unfold get_filtered_data
  rcases h with h | h | h <;> simp [h]

/-- Witness for C3: empty quarters force `None` even on a populated
table with populated types. -/
theorem insufficient_selection_none_witness :
    get_filtered_data stumpageEx
      ⟨"Minimum", ["Pine Sawtimber"], [], some (2000, 2030)⟩ = none :=
  insufficient_selection_none _ _ (Or.inr (Or.inl rfl))

/-- The ordinal code of a `Time` value under the ordered categories of
the frame: its position in `timeCats`. `sort_values("Time")` on the
categorical column orders rows by this code. -/
def timeRank (cats : List String) (t : String) : Nat :=
  cats.indexOf t

/-- Row comparison used by `data[...].sort_values("Time")` at line 266:
ascending categorical code of `Time`. -/
def TimeLe (cats : List String) (a b : Row) : Prop :=
  timeRank cats a.time ≤ timeRank cats b.time

instance (cats : List String) : DecidableRel (TimeLe cats) := fun a b =>
  Nat.decLe (timeRank cats a.time) (timeRank cats b.time)

instance (cats : List String) : IsTotal Row (TimeLe cats) :=
  ⟨fun a b => Nat.le_total (timeRank cats a.time) (timeRank cats b.time)⟩

instance (cats : List String) : IsTrans Row (TimeLe cats) :=
  ⟨fun _ _ _ hab hbc => Nat.le_trans hab hbc⟩

instance (cats : List String) : IsRefl Row (TimeLe cats) :=
  ⟨fun a => Nat.le_refl (timeRank cats a.time)⟩

/-- `df_t = data[data["Type"] == t].sort_values("Time")`: ascending sort
by the `Time` categorical code (pandas' sort kind is immaterial to every
ordering statement below; insertion sort realizes an ascending sort). -/
def sortValuesTime (cats : List String) (rows : List Row) : List Row :=
  List.insertionSort (TimeLe cats) rows

/-- The plot loop of app.py lines 262-266: iterate the `Type` categories
in their fixed order, skip categories with no rows
(`if t not in data["Type"].values: continue`), and for each remaining
category take its rows sorted by `Time`. -/
def plotGroups (data : Frame) : List (String × List Row) :=
  (type_order.filter (fun t => data.rows.any (fun r => r.type == some t))).map
    (fun t =>
      (t, sortValuesTime data.timeCats
            (data.rows.filter (fun r => r.type == some t))))

/-- Python `xs[::4]`: every 4th element starting at index 0. -/
def slice4 {α : Type} : List α → List α
  | [] => []
  | x :: rest => x :: slice4 (rest.drop 3)
termination_by l => l.length
decreasing_by simp; omega

/-- The x-tick computation of app.py lines 288-296: if the frame has a
`Time` column, the ticks are every 4th ordered category (`cats[::4]`),
or `[]` when there are no categories; otherwise `tickvals = None`. -/
def tickvals (data : Frame) : Option (List String) :=
  if data.cols.contains "Time" then
    some (if data.timeCats.length > 0 then slice4 data.timeCats else [])
  else none

theorem slice4_getElem {α : Type} (l : List α) (i : Nat) :
    (slice4 l)[i]? = l[4 * i]? := by
  induction l using slice4.induct generalizing i with
  | case1 => simp [slice4]
  | case2 x rest ih =>
    cases i with
    | zero => simp [slice4]
    | succ j =>
      have h4 : 4 * (j + 1) = (3 + 4 * j) + 1 := by omega
      calc (slice4 (x :: rest))[j + 1]?
          = (slice4 (rest.drop 3))[j]? := by simp [slice4]
        _ = (rest.drop 3)[4 * j]? := ih j
        _ = rest[3 + 4 * j]? := List.getElem?_drop rest 3 (4 * j)
        _ = (x :: rest)[4 * (j + 1)]? := by rw [h4]; simp

/-- C9: on a filtered frame over a schema with a `Time` column, the tick
labels are exactly every 4th of the sorted distinct `Time` values
(indices 0, 4, 8, …). -/
theorem tickvals_every_fourth (st : StumpageData) (sel : Selection)
    (frame : Frame)
    (hTime : st.cols.contains "Time" = true)
    (hout : get_filtered_data st sel = some frame) :
    tickvals frame = some (slice4 (uniqueTimeSorted frame.rows)) ∧
    ∀ i, (slice4 (uniqueTimeSorted frame.rows))[i]? =
      (uniqueTimeSorted frame.rows)[4 * i]? := by
  have hcols : frame.cols = st.cols ∧ frame.timeCats = uniqueTimeSorted frame.rows := by
    unfold get_filtered_data at hout
    split at hout
    · exact absurd hout (by simp)
    · match hyr : sel.year_range, hout with
      | some (a, b), hout =>
        simp only [Option.some.injEq] at hout
        subst hout
        exact ⟨rfl, by simp [hTime]⟩
  constructor
  · unfold tickvals
    rw [hcols.1, hTime, ← hcols.2]
    simp only [if_true]
    congr 1
    by_cases hlen : frame.timeCats.length > 0
    · simp [hlen]
    · have : frame.timeCats = [] := by
        cases h : frame.timeCats with
        | nil => rfl
        | cons a l => rw [h] at hlen; simp at hlen
      simp [this, slice4]
  · exact fun i => slice4_getElem _ i

/-- Witness for C9 at a concrete projection. -/
theorem tickvals_every_fourth_witness :
    tickvals ⟨schemaCols, [rowA, rowB, rowD],
        uniqueTimeSorted [rowA, rowB, rowD]⟩ =
      some (slice4 (uniqueTimeSorted [rowA, rowB, rowD])) := by
  have h := tickvals_every_fourth stumpageEx selEx
    ⟨schemaCols, [rowA, rowB, rowD], uniqueTimeSorted [rowA, rowB, rowD]⟩
    (by decide) (by decide)
  exact h.1

theorem pySortStrings_sorted (l : List String) :
    List.Sorted StrLe (pySortStrings l) :=
  List.sorted_insertionSort StrLe l

theorem mem_uniqueTimeSorted {t : String} {rows : List Row}
    (h : t ∈ rows.map Row.time) : t ∈ uniqueTimeSorted rows := by
  unfold uniqueTimeSorted pySortStrings
  rw [List.mem_insertionSort]
  exact List.mem_dedup.2 h

theorem rank_mono_of_sorted {cats : List String}
    (hs : List.Sorted StrLe cats) {u v : String}
    (hu : u ∈ cats) (hv : v ∈ cats)
    (hle : cats.indexOf u ≤ cats.indexOf v) : StrLe u v := by
  have hiu : cats.indexOf u < cats.length := List.indexOf_lt_length.2 hu
  have hiv : cats.indexOf v < cats.length := List.indexOf_lt_length.2 hv
  rcases Nat.lt_or_ge (cats.indexOf u) (cats.indexOf v) with hlt | hge
  · have := List.pairwise_iff_get.1 hs ⟨_, hiu⟩ ⟨_, hiv⟩ (by simpa using hlt)
    rwa [List.indexOf_get, List.indexOf_get] at this
  · have heq : cats.indexOf u = cats.indexOf v := Nat.le_antisymm hle hge
    have huv : u = v := by
      have h1 : cats.get ⟨cats.indexOf u, hiu⟩ = u := List.indexOf_get hiu
      have h2 : cats.get ⟨cats.indexOf v, hiv⟩ = v := List.indexOf_get hiv
      rw [← h1, ← h2]
      congr 1
      exact Fin.ext heq
    rw [huv]
    exact strLeChars_refl v.data

/-- Shared shape fact: a frame produced by `get_filtered_data` over a
schema with a `Time` column keeps the schema's columns, and its `Time`
categories are the sorted distinct labels of its rows. -/
theorem get_filtered_data_shape {st : StumpageData} {sel : Selection}
    {frame : Frame} (hTime : st.cols.contains "Time" = true)
    (hout : get_filtered_data st sel = some frame) :
    frame.cols = st.cols ∧ frame.timeCats = uniqueTimeSorted frame.rows := by
  unfold get_filtered_data at hout
  split at hout
  · exact absurd hout (by simp)
  · match hyr : sel.year_range, hout with
    | some (a, b), hout =>
      simp only [Option.some.injEq] at hout
      subst hout
      exact ⟨rfl, by simp [hTime]⟩

/-- C1 (amended): the derived `Time` ordering is ascending *string*
(code-point lexicographic) order, and within every plotted group the
`Time` values are non-decreasing under that string order. -/
theorem group_times_sorted_lexicographic (st : StumpageData)
    (sel : Selection) (frame : Frame)
    (hTime : st.cols.contains "Time" = true)
    (hout : get_filtered_data st sel = some frame) :
    List.Sorted StrLe frame.timeCats ∧
    ∀ g ∈ plotGroups frame, List.Sorted StrLe (g.2.map Row.time) := by
  obtain ⟨-, hcats⟩ := get_filtered_data_shape hTime hout
  have hsorted : List.Sorted StrLe frame.timeCats := by
    rw [hcats]; exact pySortStrings_sorted _
  refine ⟨hsorted, ?_⟩
  intro g hg
  unfold plotGroups at hg
  simp only [List.mem_map, List.mem_filter] at hg
  obtain ⟨t, ⟨-, -⟩, rfl⟩ := hg
  have hpair : List.Pairwise (TimeLe frame.timeCats)
      (sortValuesTime frame.timeCats
        (frame.rows.filter (fun r => r.type == some t))) :=
    List.sorted_insertionSort _ _
  dsimp only
  rw [List.Sorted, List.pairwise_map]
  refine List.Pairwise.imp_of_mem ?_ hpair
  intro a b ha hb hr
  have hmem : ∀ {c : Row},
      c ∈ sortValuesTime frame.timeCats
        (frame.rows.filter (fun r => r.type == some t)) →
      c.time ∈ frame.timeCats := by
    intro c hc
    rw [hcats]
    apply mem_uniqueTimeSorted
    unfold sortValuesTime at hc
    rw [List.mem_insertionSort] at hc
    exact List.mem_map_of_mem _ (List.mem_of_mem_filter hc)
  exact rank_mono_of_sorted hsorted (hmem ha) (hmem hb) hr

/-- Witness for C1 (amended) at a concrete projection whose labels
include a two-digit quarter. -/
theorem group_times_sorted_lexicographic_witness :
    List.Sorted StrLe (uniqueTimeSorted [rowA, rowB, rowD]) ∧
    ∀ g ∈ plotGroups ⟨schemaCols, [rowA, rowB, rowD],
        uniqueTimeSorted [rowA, rowB, rowD]⟩,
      List.Sorted StrLe (g.2.map Row.time) :=
  group_times_sorted_lexicographic stumpageEx selEx
    ⟨schemaCols, [rowA, rowB, rowD], uniqueTimeSorted [rowA, rowB, rowD]⟩
    (by decide) (by decide)

/-- Split a character list at every occurrence of `sep` (like Python's
`str.split(sep)` for a single-character separator). -/
def splitOnChar (sep : Char) : List Char → List (List Char)
  | [] => [[]]
  | c :: rest =>
    let r := splitOnChar sep rest
    if c = sep then [] :: r
    else
      match r with
      | s :: ss => (c :: s) :: ss
      | [] => [[c]]

def isDigitChar (c : Char) : Bool :=
  48 ≤ c.toNat && c.toNat ≤ 57

def charDigitVal (c : Char) : Nat :=
  c.toNat - 48

/-- Parse a non-empty all-digit character list as a natural number. -/
def natFromChars (cs : List Char) : Option Nat :=
  if cs.isEmpty then none
  else if cs.all isDigitChar then
    some (cs.foldl (fun a c => a * 10 + charDigitVal c) 0)
  else none

/-- Modelled from the spec: the (Year, Quarter) pair denoted by a `Time`
label of the shape `<year>-Q<quarter>` ("a (Year, Quarter) pair
identifying one reporting interval, displayed as a compact label"). -/
def periodKey (t : String) : Option (Nat × Nat) :=
  match splitOnChar '-' t.data with
  | [ychars, qchars] =>
    match qchars with
    | q0 :: qrest =>
      if q0 = 'Q' then
        match natFromChars ychars, natFromChars qrest with
        | some y, some q => some (y, q)
        | _, _ => none
      else none
    | [] => none
  | _ => none

/-- Modelled from the spec: chronological comparison of `Time` labels by
their (Year, Quarter) pair, the order the claim asserts ("periods must
sort by (Year, Quarter) pair"); labels that are not period labels are
left unconstrained. -/
def chronLeSpec (a b : String) : Bool :=
  match periodKey a, periodKey b with
  | some p, some q => decide (p.1 < q.1 ∨ (p.1 = q.1 ∧ p.2 ≤ q.2))
  | _, _ => true

/-- C1 counterexample: with labels `2021-Q10` and `2021-Q2` present, the
plotted group's `Time` values are NOT non-decreasing under the
chronological (Year, Quarter) order — the code sorted them as strings,
putting quarter 10 before quarter 2. -/
theorem group_times_not_chronological :
    ∃ frame, get_filtered_data stumpageEx selEx = some frame ∧
      ∃ g ∈ plotGroups frame,
        g.2.map Row.time = ["2019-Q1", "2021-Q10", "2021-Q2"] ∧
        periodKey "2021-Q10" = some (2021, 10) ∧
        periodKey "2021-Q2" = some (2021, 2) ∧
        ¬ List.Pairwise (fun a b => chronLeSpec a b = true)
            (g.2.map Row.time) := by
  refine ⟨⟨schemaCols, [rowA, rowB, rowD],
    uniqueTimeSorted [rowA, rowB, rowD]⟩, by decide, ?_⟩
  refine ⟨("Pine Sawtimber",
    sortValuesTime (uniqueTimeSorted [rowA, rowB, rowD]) [rowA, rowB, rowD]),
    ?_, ?_, ?_, ?_, ?_⟩ <;> decide

/-- A list permutation leaves `any` unchanged (pandas `isin`/mask logic
is order-blind). -/
theorem any_eq_of_perm {α : Type} {l1 l2 : List α} (h : l1.Perm l2)
    (p : α → Bool) : l1.any p = l2.any p := by
  cases h1 : l1.any p <;> cases h2 : l2.any p <;> try rfl
  · rw [List.any_eq_true] at h2
    obtain ⟨x, hx, hpx⟩ := h2
    have := List.any_eq_true.2 ⟨x, h.mem_iff.2 hx, hpx⟩
    rw [h1] at this; cases this
  · rw [List.any_eq_true] at h1
    obtain ⟨x, hx, hpx⟩ := h1
    have := List.any_eq_true.2 ⟨x, h.mem_iff.1 hx, hpx⟩
    rw [h2] at this; cases this

/-- Shared shape fact: the rows of a filtered frame are the mask-filtered
rows of the table. -/
theorem get_filtered_data_rows {st : StumpageData} {sel : Selection}
    {frame : Frame} (hout : get_filtered_data st sel = some frame) :
    ∃ a b, sel.year_range = some (a, b) ∧
      frame.rows = st.rows.filter (rowMatches sel a b) := by
  unfold get_filtered_data at hout
  split at hout
  · exact absurd hout (by simp)
  · match hyr : sel.year_range, hout with
    | some (a, b), hout =>
      simp only [Option.some.injEq] at hout
      subst hout
      exact ⟨a, b, rfl, rfl⟩

/-- C6: the plotted groups follow the fixed five-category order with
empty categories skipped; each group holds exactly the frame's rows of
its category, sorted by the `Time` ordering; and the group sequence does
not depend on the row order of the source table. -/
theorem plotGroups_grouping (st : StumpageData) (sel : Selection)
    (frame : Frame) (hout : get_filtered_data st sel = some frame) :
    ((plotGroups frame).map Prod.fst =
      type_order.filter (fun t => frame.rows.any (fun r => r.type == some t))) ∧
    (∀ g ∈ plotGroups frame,
      g.2 ≠ [] ∧
      (∀ r ∈ g.2, r.type = some g.1) ∧
      g.2.Perm (frame.rows.filter (fun r => r.type == some g.1)) ∧
      List.Pairwise (TimeLe frame.timeCats) g.2) ∧
    (∀ st2 frame2, st2.rows.Perm st.rows →
      get_filtered_data st2 sel = some frame2 →
      (plotGroups frame2).map Prod.fst = (plotGroups frame).map Prod.fst) := by
  refine ⟨?_, ?_, ?_⟩
  · unfold plotGroups
    rw [List.map_map]
    exact List.map_id _
  · intro g hg
    unfold plotGroups at hg
    simp only [List.mem_map, List.mem_filter] at hg
    obtain ⟨t, ⟨-, hany⟩, rfl⟩ := hg
    obtain ⟨r, hr, hrt⟩ := List.any_eq_true.1 hany
    refine ⟨?_, ?_, ?_, ?_⟩
    · have hmem : r ∈ sortValuesTime frame.timeCats
          (frame.rows.filter (fun x => x.type == some t)) := by
        unfold sortValuesTime
        rw [List.mem_insertionSort]
        exact List.mem_filter.2 ⟨hr, hrt⟩
      exact List.ne_nil_of_mem hmem
    · intro x hx
      unfold sortValuesTime at hx
      rw [List.mem_insertionSort] at hx
      have := (List.mem_filter.1 hx).2
      simpa using this
    · exact List.perm_insertionSort _ _
    · exact List.sorted_insertionSort _ _
  · intro st2 frame2 hperm hout2
    obtain ⟨a, b, hyr, hrows⟩ := get_filtered_data_rows hout
    obtain ⟨a2, b2, hyr2, hrows2⟩ := get_filtered_data_rows hout2
    rw [hyr] at hyr2
    injection hyr2 with hab
    obtain ⟨rfl, rfl⟩ : a2 = a ∧ b2 = b := by
      constructor <;> [exact congrArg Prod.fst hab.symm; exact congrArg Prod.snd hab.symm]
    have hfperm : frame2.rows.Perm frame.rows := by
      rw [hrows, hrows2]
      exact hperm.filter _
    unfold plotGroups
    rw [List.map_map, List.map_map]
    congr 1
    apply List.filter_congr
    intro t ht
    exact any_eq_of_perm hfperm _

/-- Witness for C6: on the concrete table the single non-empty group is
Pine Sawtimber (categories with no rows are skipped). -/
theorem plotGroups_grouping_witness :
    (plotGroups ⟨schemaCols, [rowA, rowB, rowD],
        uniqueTimeSorted [rowA, rowB, rowD]⟩).map Prod.fst =
      ["Pine Sawtimber"] := by
  have h := (plotGroups_grouping stumpageEx selEx
    ⟨schemaCols, [rowA, rowB, rowD], uniqueTimeSorted [rowA, rowB, rowD]⟩
    (by decide)).1
  rw [h]
  decide

/-- The values currently shown by the four widgets (radio at line 129,
multiselects at 136/143, slider at 150). -/
structure WidgetState where
  price_selector : String
  selected_types : List String
  selected_quarters : List String
  year_range : Int × Int
deriving DecidableEq, Repr

/-- The `st.session_state` entries touched by the Clear All handler;
`none` models an absent key, for which `.get` falls back to the widget
value. -/
structure SessionState where
  sel_types : Option (List String)
  sel_quarters : Option (List String)
  yr_range : Option (Int × Int)
deriving DecidableEq, Repr

/-- Lines 158-167: if Clear All was clicked, write the three reset keys
into session state; then re-bind `selected_types`, `selected_quarters`
and `year_range` from session state with the widget values as fallback.
`price_selector` is bound at line 129 and never touched here. -/
def runControls (w : WidgetState) (clicked : Bool) (ss0 : SessionState)
    (min_yr max_yr : Int) : Selection × SessionState :=
  let ss := if clicked then
      ⟨some [], some [], some (min_yr, max_yr)⟩
    else ss0
  ({ price_selector := w.price_selector,
     selected_types := ss.sel_types.getD w.selected_types,
     selected_quarters := ss.sel_quarters.getD w.selected_quarters,
     year_range := some (ss.yr_range.getD w.year_range) }, ss)

/-- The Selection of a freshly loaded session: the radio's default is
index 1 = "Average" (line 132), the multiselects default to `[]`
(lines 139/146), the slider to the full observed span (line 154). -/
def defaultSelection (min_yr max_yr : Int) : Selection :=
  ⟨"Average", [], [], some (min_yr, max_yr)⟩

/-- C4 counterexample: with the radio on "Minimum", clicking Clear All
leaves price-kind at "Minimum"; the resulting Selection is not the
fresh-session default, so not all four fields are restored. -/
theorem clear_all_keeps_price_kind :
    (runControls ⟨"Minimum", ["Pine Sawtimber"], ["Q1"], (2015, 2020)⟩
        true ⟨none, none, none⟩ 2008 2024).1.price_selector = "Minimum" ∧
    (runControls ⟨"Minimum", ["Pine Sawtimber"], ["Q1"], (2015, 2020)⟩
        true ⟨none, none, none⟩ 2008 2024).1 ≠
      defaultSelection 2008 2024 := by
  constructor <;> decide

/-- C4 (amended): one click of Clear All restores selected-types,
selected-quarters and year-range to their fresh-session defaults in the
same run — all three together, whatever the widgets and session held —
while price-kind keeps the widget's current value and is not reset. -/
theorem clear_all_resets_other_three (w : WidgetState) (clicked : Bool)
    (ss0 : SessionState) (min_yr max_yr : Int) (hc : clicked = true) :
    (runControls w clicked ss0 min_yr max_yr).1 =
      ⟨w.price_selector, [], [], some (min_yr, max_yr)⟩ ∧
    (runControls w clicked ss0 min_yr max_yr).2 =
      ⟨some [], some [], some (min_yr, max_yr)⟩ := by
  subst hc
  exact ⟨rfl, rfl⟩

/-- Witness for C4 (amended). -/
theorem clear_all_resets_other_three_witness :
    (runControls ⟨"Minimum", ["Pine Pulpwood"], ["Q3"], (2016, 2018)⟩
        true ⟨some ["Hardwood Pulpwood"], none, some (2010, 2011)⟩
        2008 2024).1 =
      ⟨"Minimum", [], [], some (2008, 2024)⟩ :=
  (clear_all_resets_other_three _ true _ 2008 2024 rfl).1

/-- A plotly trace as assembled at lines 268-286: one per category, its
x the `Time` values, its y the rows' chosen price column, its marker
symbol looked up in `symbol_map` with default "circle". -/
structure Trace where
  name : String
  x : List String
  y : List Dec
  symbol : String
deriving DecidableEq, Repr

/-- `symbol_map` of lines 251-257. -/
def symbol_map : List (String × String) :=
  [("Pine Sawtimber", "circle"),
   ("Mixed Hardwood Sawtimber", "square"),
   ("Pine Chip-n-Saw", "diamond"),
   ("Pine Pulpwood", "triangle-up"),
   ("Hardwood Pulpwood", "triangle-down")]

/-- `symbol_map.get(t, "circle")`. -/
def lookupOrDefault (m : List (String × String)) (k d : String) : String :=
  match m.lookup k with
  | some v => v
  | none => d

/-- `row[price_column_name]`: the radio restricts the column name to
"Minimum"/"Average"/"Maximum"; only those three columns are ever read as
y-values. -/
def priceValue (col : String) (r : Row) : Dec :=
  if col = "Minimum" then r.minimum
  else if col = "Maximum" then r.maximum
  else r.average

inductive RenderOutcome where
  | columnError (col : String)
  | chart (traces : List Trace) (ticks : Option (List String))
deriving DecidableEq, Repr

/-- Lines 234-332: if the selected price column is not among the data's
columns, show a visible error and build nothing for this cycle;
otherwise build one trace per non-empty category group plus the thinned
tick labels. -/
def renderChart (price_selector : String) (data : Frame) : RenderOutcome :=
  if (data.cols.contains price_selector) = false then
    RenderOutcome.columnError price_selector
  else
    RenderOutcome.chart
      ((plotGroups data).map (fun g =>
        ⟨g.1, g.2.map Row.time, g.2.map (priceValue price_selector),
         lookupOrDefault symbol_map g.1 "circle"⟩))
      (tickvals data)

/-- C8: the configuration-error branch is taken, with no trace drawn,
exactly when the selected price column is absent; when it is present the
chart is built and the branch is never taken. -/
theorem render_column_error_iff (price_selector : String) (data : Frame) :
    ((∃ c, renderChart price_selector data =
        RenderOutcome.columnError c) ↔
      data.cols.contains price_selector = false) ∧
    (data.cols.contains price_selector = true →
      renderChart price_selector data =
        RenderOutcome.chart
          ((plotGroups data).map (fun g =>
            ⟨g.1, g.2.map Row.time, g.2.map (priceValue price_selector),
             lookupOrDefault symbol_map g.1 "circle"⟩))
          (tickvals data)) := by
  constructor
  · constructor
    · intro ⟨c, hc⟩
      unfold renderChart at hc
      by_cases h : data.cols.contains price_selector = false
      · exact h
      · rw [if_neg h] at hc
        cases hc
    · intro h
      exact ⟨price_selector, by unfold renderChart; rw [if_pos h]⟩
  · intro h
    unfold renderChart
    rw [if_neg (by rw [h]; exact fun hne => nomatch hne)]

/-- Witness for C8: with the full schema the chart branch is taken; on a
frame whose columns lack "Average" the error branch is taken. -/
theorem render_column_error_iff_witness :
    renderChart "Average"
        ⟨["Type", "Time"], [rowA], uniqueTimeSorted [rowA]⟩ =
      RenderOutcome.columnError "Average" ∧
    ¬ ∃ c, renderChart "Average"
        ⟨schemaCols, [rowA], uniqueTimeSorted [rowA]⟩ =
      RenderOutcome.columnError c := by
  constructor
  · obtain ⟨c, hc⟩ :=
      (render_column_error_iff "Average"
        ⟨["Type", "Time"], [rowA], uniqueTimeSorted [rowA]⟩).1.2 (by decide)
    have : c = "Average" := by
      unfold renderChart at hc
      rw [if_pos (by decide)] at hc
      cases hc
      rfl
    rw [this] at hc
    exact hc
  · intro hex
    have := (render_column_error_iff "Average"
      ⟨schemaCols, [rowA], uniqueTimeSorted [rowA]⟩).1.1 hex
    exact absurd this (by decide)

/-- `pd.DataFrame()`, the empty frame returned by the failure branch of
`load_stumpage` (lines 33-40): no columns, no rows. -/
def emptyStumpage : StumpageData := ⟨[], []⟩

/-- Line 45 reads `stumpage["Year"]`: column access raises `KeyError`
when the column does not exist, modelled by `none`; otherwise the `Year`
cells. -/
def yearColumn (st : StumpageData) : Option (List (Option Int)) :=
  if st.cols.contains "Year" then some (st.rows.map Row.year) else none

/-- Line 121, `int(stumpage["Year"].min())`: the Series min skips NaN
and is itself NaN on an empty (or all-NaN) Series, and `int(NaN)`
raises `ValueError`; `none` models the absence of any integer result. -/
def min_year (st : StumpageData) : Option Int :=
  match yearColumn st with
  | none => none
  | some ys =>
    match ys.filterMap id with
    | [] => none
    | y :: rest => some (rest.foldl min y)

/-- Line 122, `int(stumpage["Year"].max())`, same failure modes. -/
def max_year (st : StumpageData) : Option Int :=
  match yearColumn st with
  | none => none
  | some ys =>
    match ys.filterMap id with
    | [] => none
    | y :: rest => some (rest.foldl max y)

/-- C5 evaluation at the failing input: after a failed load the table is
`pd.DataFrame()`; `stumpage["Year"]` has no value (line 45 raises
`KeyError`), and neither `int(min)` nor `int(max)` of the observed years
has a value (lines 121-122 would raise `ValueError`). The script run
therefore dies before any "no data" state is rendered, contrary to the
claim. -/
theorem empty_load_crashes_downstream :
    yearColumn emptyStumpage = none ∧
    min_year emptyStumpage = none ∧
    max_year emptyStumpage = none := by
  refine ⟨rfl, rfl, rfl⟩

/-- A heap of live DataFrames: a DataFrame variable of the script is an
index into it, so an in-place column assignment through one variable is
visible through every alias of that index. `stumpage` lives at some
index; its plain (non-categorical) `Time` column means `timeCats = []`
there. -/
structure PdState where
  frames : List Frame
deriving DecidableEq, Repr

def readFrame (s : PdState) (i : Nat) : Frame :=
  (s.frames[i]?).getD ⟨[], [], []⟩

def writeFrame (s : PdState) (i : Nat) (f : Frame) : PdState :=
  ⟨s.frames.set i f⟩

def allocFrame (s : PdState) (f : Frame) : Nat × PdState :=
  (s.frames.length, ⟨s.frames ++ [f]⟩)

/-- `get_filtered_data` as the heap program the source runs (lines
199-218): the boolean-mask selection followed by `.copy()` (line 211)
yields a fresh frame — one allocation models the pair — and line 216
then assigns the re-typed `Time` column onto that fresh frame in place.
Returns the index the variable `data` will refer to. -/
def get_filtered_data_heap (stumpIdx : Nat) (sel : Selection)
    (s : PdState) : Option Nat × PdState :=
  if sel.selected_types.isEmpty || sel.selected_quarters.isEmpty ||
      sel.year_range.isNone then
    (none, s)
  else
    match sel.year_range with
    | none => (none, s)
    | some (yr_min, yr_max) =>
      let st := readFrame s stumpIdx
      let ip := allocFrame s
        ⟨st.cols, st.rows.filter (rowMatches sel yr_min yr_max), st.timeCats⟩
      let d := readFrame ip.2 ip.1
      let s2 :=
        if d.cols.contains "Time" then
          writeFrame ip.2 ip.1 ⟨d.cols, d.rows, uniqueTimeSorted d.rows⟩
        else ip.2
      (some ip.1, s2)

theorem readFrame_alloc (s : PdState) (f : Frame) :
    readFrame (allocFrame s f).2 (allocFrame s f).1 = f := by
  simp [readFrame, allocFrame]

theorem readFrame_alloc_lt (s : PdState) (f : Frame) {i : Nat}
    (h : i < s.frames.length) :
    readFrame (allocFrame s f).2 i = readFrame s i := by
  simp only [readFrame, allocFrame]
  rw [List.getElem?_append, if_pos h]

theorem readFrame_write_self (s : PdState) (f : Frame) {i : Nat}
    (h : i < s.frames.length) :
    readFrame (writeFrame s i f) i = f := by
  simp only [readFrame, writeFrame]
  rw [List.getElem?_set_self h]
  rfl

theorem readFrame_write_ne (s : PdState) (f : Frame) {i j : Nat}
    (h : i ≠ j) :
    readFrame (writeFrame s i f) j = readFrame s j := by
  simp only [readFrame, writeFrame]
  rw [List.getElem?_set_ne h]

theorem length_alloc (s : PdState) (f : Frame) :
    (allocFrame s f).2.frames.length = s.frames.length + 1 := by
  simp [allocFrame]

theorem length_write (s : PdState) (i : Nat) (f : Frame) :
    (writeFrame s i f).frames.length = s.frames.length := by
  simp [writeFrame]

theorem readFrame_write_alloc_ne (s : PdState) (m f : Frame) {j : Nat}
    (h : j < s.frames.length) :
    readFrame (writeFrame (allocFrame s m).2 (allocFrame s m).1 f) j =
      readFrame s j := by
  rw [readFrame_write_ne _ _ (Nat.ne_of_gt h : (allocFrame s m).1 ≠ j)]
  exact readFrame_alloc_lt s m h

theorem readFrame_write_alloc_self (s : PdState) (m f : Frame) :
    readFrame (writeFrame (allocFrame s m).2 (allocFrame s m).1 f)
      (allocFrame s m).1 = f := by
  apply readFrame_write_self
  rw [length_alloc]
  exact Nat.lt_succ_self _

/-- Shared helper: one heap run leaves the stumpage frame untouched,
returns (through its index) exactly the pure `get_filtered_data` of the
stumpage frame, and never shrinks the heap. -/
theorem heap_run_preserves_and_refines (stumpIdx : Nat) (sel : Selection)
    (s : PdState) (hlt : stumpIdx < s.frames.length)
    (hplain : (readFrame s stumpIdx).timeCats = []) :
    readFrame (get_filtered_data_heap stumpIdx sel s).2 stumpIdx =
      readFrame s stumpIdx ∧
    ((get_filtered_data_heap stumpIdx sel s).1.map
        (readFrame (get_filtered_data_heap stumpIdx sel s).2)) =
      get_filtered_data
        ⟨(readFrame s stumpIdx).cols, (readFrame s stumpIdx).rows⟩ sel ∧
    s.frames.length ≤ (get_filtered_data_heap stumpIdx sel s).2.frames.length := by
  by_cases hcond : (sel.selected_types.isEmpty || sel.selected_quarters.isEmpty ||
      sel.year_range.isNone) = true
  · rw [show get_filtered_data_heap stumpIdx sel s = (none, s) by
      unfold get_filtered_data_heap; rw [if_pos hcond]]
    rw [show get_filtered_data
        ⟨(readFrame s stumpIdx).cols, (readFrame s stumpIdx).rows⟩ sel = none by
      unfold get_filtered_data; rw [if_pos hcond]]
    exact ⟨rfl, rfl, Nat.le_refl _⟩
  · match hyr : sel.year_range with
    | none => rw [hyr] at hcond; simp at hcond
    | some (a, b) =>
      have hmask :
          get_filtered_data_heap stumpIdx sel s =
            (let m : Frame :=
              ⟨(readFrame s stumpIdx).cols,
               (readFrame s stumpIdx).rows.filter (rowMatches sel a b),
               (readFrame s stumpIdx).timeCats⟩
             let ip := allocFrame s m
             if m.cols.contains "Time" then
               (some ip.1,
                 writeFrame ip.2 ip.1 ⟨m.cols, m.rows, uniqueTimeSorted m.rows⟩)
             else (some ip.1, ip.2)) := by
        unfold get_filtered_data_heap
        rw [if_neg hcond, hyr]
        simp only [readFrame_alloc]
        by_cases hT : ((readFrame s stumpIdx).cols.contains "Time") = true
        · rw [if_pos hT, if_pos hT]
        · rw [if_neg hT, if_neg hT]
      have hpure :
          get_filtered_data
            ⟨(readFrame s stumpIdx).cols, (readFrame s stumpIdx).rows⟩ sel =
          some ⟨(readFrame s stumpIdx).cols,
            (readFrame s stumpIdx).rows.filter (rowMatches sel a b),
            if (readFrame s stumpIdx).cols.contains "Time" then
              uniqueTimeSorted
                ((readFrame s stumpIdx).rows.filter (rowMatches sel a b))
            else []⟩ := by
        unfold get_filtered_data
        rw [if_neg hcond, hyr]
      rw [hmask, hpure]
      dsimp only
      by_cases hT : ((readFrame s stumpIdx).cols.contains "Time") = true
      · rw [if_pos hT, if_pos hT]
        refine ⟨?_, ?_, ?_⟩
        · rw [readFrame_write_alloc_ne _ _ _ hlt]
        · simp only [Option.map_some', Option.some.injEq]
          rw [readFrame_write_alloc_self]
        · rw [length_write, length_alloc]; omega
      · rw [if_neg hT, if_neg hT]
        refine ⟨?_, ?_, ?_⟩
        · rw [readFrame_alloc_lt _ _ hlt]
        · simp only [Option.map_some', Option.some.injEq]
          rw [readFrame_alloc, hplain]
        · rw [length_alloc]; omega

/-- C10: `get_filtered_data` never mutates the loaded table: after a run
(including the in-place `Time` re-typing, which hits only the fresh
copy) the stumpage frame is unchanged, the observed result is the pure
projection of that frame, and any later projection under any Selection
observes the very same Dataset and result as it would have on the
original state. -/
theorem projection_does_not_mutate_stumpage (stumpIdx : Nat)
    (sel : Selection) (s : PdState) (hlt : stumpIdx < s.frames.length)
    (hplain : (readFrame s stumpIdx).timeCats = []) :
    readFrame (get_filtered_data_heap stumpIdx sel s).2 stumpIdx =
      readFrame s stumpIdx ∧
    ((get_filtered_data_heap stumpIdx sel s).1.map
        (readFrame (get_filtered_data_heap stumpIdx sel s).2)) =
      get_filtered_data
        ⟨(readFrame s stumpIdx).cols, (readFrame s stumpIdx).rows⟩ sel ∧
    (∀ sel2,
      ((get_filtered_data_heap stumpIdx sel2
          (get_filtered_data_heap stumpIdx sel s).2).1.map
        (readFrame (get_filtered_data_heap stumpIdx sel2
          (get_filtered_data_heap stumpIdx sel s).2).2)) =
      ((get_filtered_data_heap stumpIdx sel2 s).1.map
        (readFrame (get_filtered_data_heap stumpIdx sel2 s).2))) := by
  obtain ⟨h1, h2, h3⟩ := heap_run_preserves_and_refines stumpIdx sel s hlt hplain
  refine ⟨h1, h2, ?_⟩
  intro sel2
  have hlt2 : stumpIdx <
      (get_filtered_data_heap stumpIdx sel s).2.frames.length :=
    Nat.lt_of_lt_of_le hlt h3
  have hplain2 :
      (readFrame (get_filtered_data_heap stumpIdx sel s).2 stumpIdx).timeCats
        = [] := by
    rw [h1]; exact hplain
  obtain ⟨-, h2b, -⟩ :=
    heap_run_preserves_and_refines stumpIdx sel2 _ hlt2 hplain2
  obtain ⟨-, h2c, -⟩ :=
    heap_run_preserves_and_refines stumpIdx sel2 s hlt hplain
  rw [h2b, h2c, h1]

/-- Witness for C10: on a concrete one-frame heap, the stumpage frame is
identical before and after a projection. -/
theorem projection_does_not_mutate_stumpage_witness :
    readFrame (get_filtered_data_heap 0 selEx
        ⟨[⟨schemaCols, stumpageEx.rows, []⟩]⟩).2 0 =
      readFrame ⟨[⟨schemaCols, stumpageEx.rows, []⟩]⟩ 0 :=
  (projection_does_not_mutate_stumpage 0 selEx
    ⟨[⟨schemaCols, stumpageEx.rows, []⟩]⟩ (by decide) (by decide)).1

/-- The character for a decimal digit. -/
def digitOfNat (d : Nat) : Char := Char.ofNat (48 + d)

/-- The decimal digit characters of `n`, most significant first, as a
CSV writer prints a natural number. -/
def natChars (n : Nat) : List Char :=
  if _h : n < 10 then [digitOfNat n]
  else natChars (n / 10) ++ [digitOfNat (n % 10)]
termination_by n
decreasing_by exact Nat.div_lt_self (by omega) (by omega)

theorem natChars_eq (n : Nat) :
    natChars n = if n < 10 then [digitOfNat n]
      else natChars (n / 10) ++ [digitOfNat (n % 10)] := by
  conv_lhs => unfold natChars
  split <;> rfl

/-- The numeric value of a digit string, as a CSV reader folds it up. -/
def digitsVal (cs : List Char) : Nat :=
  cs.foldl (fun a c => a * 10 + charDigitVal c) 0

theorem charDigitVal_digitOfNat {d : Nat} (h : d < 10) :
    charDigitVal (digitOfNat d) = d := by
  interval_cases d <;> decide

theorem isDigitChar_digitOfNat {d : Nat} (h : d < 10) :
    isDigitChar (digitOfNat d) = true := by
  interval_cases d <;> decide

theorem natChars_ne_nil (n : Nat) : natChars n ≠ [] := by
  rw [natChars_eq]
  split
  · simp
  · simp

theorem natChars_all_digits (n : Nat) :
    ∀ c ∈ natChars n, isDigitChar c = true := by
  induction n using natChars.induct with
  | case1 n h =>
    intro c hc
    rw [natChars_eq, if_pos h] at hc
    simp only [List.mem_singleton] at hc
    subst hc
    exact isDigitChar_digitOfNat h
  | case2 n h ih =>
    intro c hc
    rw [natChars_eq, if_neg h] at hc
    rw [List.mem_append] at hc
    rcases hc with hc | hc
    · exact ih c hc
    · simp only [List.mem_singleton] at hc
      subst hc
      exact isDigitChar_digitOfNat (Nat.mod_lt _ (by omega))

theorem digitsVal_append_digit (cs : List Char) (c : Char) :
    digitsVal (cs ++ [c]) = digitsVal cs * 10 + charDigitVal c := by
  unfold digitsVal
  rw [List.foldl_append]
  rfl

theorem digitsVal_natChars (n : Nat) : digitsVal (natChars n) = n := by
  induction n using natChars.induct with
  | case1 n h =>
    rw [natChars_eq, if_pos h]
    show 0 * 10 + charDigitVal (digitOfNat n) = n
    rw [charDigitVal_digitOfNat h]
    omega
  | case2 n h ih =>
    rw [natChars_eq, if_neg h, digitsVal_append_digit, ih,
      charDigitVal_digitOfNat (Nat.mod_lt _ (by omega))]
    omega

theorem natFromChars_natChars (n : Nat) :
    natFromChars (natChars n) = some n := by
  unfold natFromChars
  rw [if_neg (by simp [natChars_ne_nil n])]
  rw [if_pos (List.all_eq_true.2 (fun c hc => natChars_all_digits n c hc))]
  exact congrArg some (digitsVal_natChars n)

/-- Join chunks with a separator character (inverse of `splitOnChar`). -/
def joinSep (sep : Char) : List (List Char) → List Char
  | [] => []
  | [x] => x
  | x :: y :: xs => x ++ sep :: joinSep sep (y :: xs)

theorem splitOnChar_cons (sep c : Char) (rest : List Char) :
    splitOnChar sep (c :: rest) =
      if c = sep then [] :: splitOnChar sep rest
      else
        match splitOnChar sep rest with
        | s :: ss => (c :: s) :: ss
        | [] => [[c]] := by
  conv_lhs => unfold splitOnChar

theorem splitOnChar_chunk (sep : Char) (x : List Char) {rest : List Char}
    (hx : ∀ c ∈ x, c ≠ sep) {s : List Char} {ss : List (List Char)}
    (h : splitOnChar sep rest = s :: ss) :
    splitOnChar sep (x ++ rest) = (x ++ s) :: ss := by
  induction x with
  | nil => simpa using h
  | cons c cx ih =>
    have hc : c ≠ sep := hx c (List.mem_cons_self c cx)
    have hx' : ∀ d ∈ cx, d ≠ sep := fun d hd => hx d (List.mem_cons_of_mem c hd)
    rw [List.cons_append, splitOnChar_cons, if_neg hc, ih hx']
    rfl

theorem splitOnChar_joinSep (sep : Char) (parts : List (List Char))
    (hne : parts ≠ [])
    (hfree : ∀ p ∈ parts, ∀ c ∈ p, c ≠ sep) :
    splitOnChar sep (joinSep sep parts) = parts := by
  induction parts with
  | nil => exact absurd rfl hne
  | cons x xs ih =>
    cases xs with
    | nil =>
      have h0 : splitOnChar sep ([] : List Char) = [] :: [] := rfl
      have := splitOnChar_chunk sep x
        (hfree x (List.mem_cons_self x [])) h0
      simpa [joinSep] using this
    | cons y ys =>
      have hys : splitOnChar sep (joinSep sep (y :: ys)) = y :: ys :=
        ih (by simp) (fun p hp => hfree p (List.mem_cons_of_mem x hp))
      have hrest : splitOnChar sep (sep :: joinSep sep (y :: ys)) =
          [] :: (y :: ys) := by
        rw [splitOnChar_cons, if_pos rfl, hys]
      have hx : ∀ c ∈ x, c ≠ sep := hfree x (List.mem_cons_self x _)
      show splitOnChar sep (x ++ sep :: joinSep sep (y :: ys)) = x :: y :: ys
      rw [splitOnChar_chunk sep x hx hrest]
      simp

theorem mem_joinSep {sep : Char} {parts : List (List Char)} {c : Char}
    (hc : c ∈ joinSep sep parts) :
    c = sep ∨ ∃ p ∈ parts, c ∈ p := by
  induction parts with
  | nil => simp [joinSep] at hc
  | cons x xs ih =>
    cases xs with
    | nil =>
      simp only [joinSep] at hc
      exact Or.inr ⟨x, List.mem_cons_self x _, hc⟩
    | cons y ys =>
      simp only [joinSep, List.mem_append, List.mem_cons] at hc
      rcases hc with hc | hc | hc
      · exact Or.inr ⟨x, List.mem_cons_self x _, hc⟩
      · exact Or.inl hc
      · rcases ih hc with h | ⟨p, hp, hcp⟩
        · exact Or.inl h
        · exact Or.inr ⟨p, List.mem_cons_of_mem x hp, hcp⟩

/-- The characters of an integer as printed in a CSV cell. -/
def intChars (i : Int) : List Char :=
  if i < 0 then '-' :: natChars i.natAbs else natChars i.natAbs

/-- Parse an optionally-signed integer numeral. -/
def intFromChars (cs : List Char) : Option Int :=
  match cs with
  | [] => none
  | c :: rest =>
    if c = '-' then (natFromChars rest).map (fun n => -(n : Int))
    else (natFromChars (c :: rest)).map (fun n => (n : Int))

theorem digit_ne_low (c : Char) (hc : isDigitChar c = true) (d : Char)
    (hd : d.toNat < 48) : c ≠ d := by
  intro h
  subst h
  unfold isDigitChar at hc
  simp only [Bool.and_eq_true, decide_eq_true_eq] at hc
  omega

theorem intFromChars_intChars (i : Int) :
    intFromChars (intChars i) = some i := by
  unfold intChars
  obtain ⟨c, rest, hceq⟩ : ∃ c rest, natChars i.natAbs = c :: rest := by
    cases hnc : natChars i.natAbs with
    | nil => exact absurd hnc (natChars_ne_nil _)
    | cons c rest => exact ⟨c, rest, rfl⟩
  have hdig : isDigitChar c = true :=
    natChars_all_digits i.natAbs c (by rw [hceq]; exact List.mem_cons_self _ _)
  have hcne : c ≠ '-' := digit_ne_low c hdig _ (by decide)
  by_cases h : i < 0
  · rw [if_pos h]
    show intFromChars ('-' :: natChars i.natAbs) = some i
    simp [intFromChars, natFromChars_natChars, abs_of_neg h]
  · rw [if_neg h]
    rw [hceq]
    simp only [intFromChars, if_neg hcne]
    rw [← hceq]
    simp [natFromChars_natChars, abs_of_nonneg (by omega : (0 : Int) ≤ i)]

/-- Left-pad a digit string with zeros to at least `k` characters. -/
def padZeros (k : Nat) (cs : List Char) : List Char :=
  List.replicate (k - cs.length) '0' ++ cs

/-- The unsigned part of a printed decimal: the digits of `n` padded to
at least `s + 1` characters, with the point inserted `s` digits from the
right when `s > 0`. -/
def decBody (n s : Nat) : List Char :=
  let digits := padZeros (s + 1) (natChars n)
  if s = 0 then digits
  else digits.take (digits.length - s) ++ '.' :: digits.drop (digits.length - s)

/-- The CSV text of a `Dec` (pandas prints price cells this way). -/
def decChars (d : Dec) : List Char :=
  if d.mant < 0 then '-' :: decBody d.mant.natAbs d.scale
  else decBody d.mant.natAbs d.scale

/-- Parse an unsigned decimal numeral: digits, or digits point digits. -/
def decFromCharsPos (cs : List Char) : Option Dec :=
  match splitOnChar '.' cs with
  | [ipart] => (natFromChars ipart).map (fun n => ⟨(n : Int), 0⟩)
  | [ipart, fpart] =>
    if ipart.isEmpty || fpart.isEmpty then none
    else
      match natFromChars (ipart ++ fpart) with
      | some n => some ⟨(n : Int), fpart.length⟩
      | none => none
  | _ => none

/-- Parse a decimal numeral with optional minus sign. -/
def decFromChars (cs : List Char) : Option Dec :=
  match cs with
  | [] => none
  | c :: rest =>
    if c = '-' then
      match decFromCharsPos rest with
      | some d => if d.mant = 0 then none else some ⟨-d.mant, d.scale⟩
      | none => none
    else decFromCharsPos (c :: rest)

theorem digitsVal_padZeros (k : Nat) (cs : List Char) :
    digitsVal (padZeros k cs) = digitsVal cs := by
  unfold padZeros
  generalize k - cs.length = m
  induction m with
  | zero => rfl
  | succ j ih =>
    rw [List.replicate_succ, List.cons_append]
    exact ih

theorem padZeros_all_digits (k n : Nat) :
    ∀ c ∈ padZeros k (natChars n), isDigitChar c = true := by
  intro c hc
  unfold padZeros at hc
  rw [List.mem_append] at hc
  rcases hc with hc | hc
  · rw [List.eq_of_mem_replicate hc]
    decide
  · exact natChars_all_digits n c hc

theorem padZeros_length (k : Nat) (cs : List Char) :
    (padZeros k cs).length = max k cs.length := by
  unfold padZeros
  rw [List.length_append, List.length_replicate]
  omega

theorem natFromChars_padZeros (k n : Nat) :
    natFromChars (padZeros k (natChars n)) = some n := by
  unfold natFromChars
  rw [if_neg, if_pos]
  · exact congrArg some ((digitsVal_padZeros k _).trans (digitsVal_natChars n))
  · exact List.all_eq_true.2 (padZeros_all_digits k n)
  · have h1 : (padZeros k (natChars n)).length ≥ 1 := by
      rw [padZeros_length]
      have := natChars_ne_nil n
      have : (natChars n).length ≥ 1 :=
        Nat.one_le_iff_ne_zero.2 (fun h0 => this (List.length_eq_zero.1 h0))
      omega
    simp only [List.isEmpty_iff]
    intro h0
    rw [h0] at h1
    simp at h1

theorem splitOnChar_sep_free (sep : Char) (x : List Char)
    (hx : ∀ c ∈ x, c ≠ sep) : splitOnChar sep x = [x] := by
  have h0 : splitOnChar sep ([] : List Char) = [] :: [] := rfl
  have := splitOnChar_chunk sep x hx h0
  simpa using this

theorem exists_head_digit {cs : List Char} (hne : cs ≠ [])
    (hd : ∀ c ∈ cs, isDigitChar c = true) :
    ∃ c rest, cs = c :: rest ∧ isDigitChar c = true := by
  cases cs with
  | nil => exact absurd rfl hne
  | cons c rest => exact ⟨c, rest, rfl, hd c (List.mem_cons_self _ _)⟩

theorem padZeros_natChars_ne_nil (k n : Nat) :
    padZeros k (natChars n) ≠ [] := by
  intro h0
  have h1 : (padZeros k (natChars n)).length = 0 := by rw [h0]; rfl
  rw [padZeros_length] at h1
  have h2 : (natChars n).length ≥ 1 :=
    Nat.one_le_iff_ne_zero.2
      (fun hz => natChars_ne_nil n (List.length_eq_zero.1 hz))
  omega

theorem decFromCharsPos_decBody (n s : Nat) :
    decFromCharsPos (decBody n s) = some ⟨(n : Int), s⟩ := by
  by_cases hs : s = 0
  · subst hs
    unfold decBody
    dsimp only
    rw [if_pos rfl]
    have hsplit : splitOnChar '.' (padZeros 1 (natChars n)) =
        [padZeros 1 (natChars n)] :=
      splitOnChar_sep_free _ _ (fun c hc =>
        digit_ne_low c (padZeros_all_digits 1 n c hc) _ (by decide))
    unfold decFromCharsPos
    rw [hsplit]
    dsimp only
    rw [natFromChars_padZeros]
    rfl
  · unfold decBody
    dsimp only
    rw [if_neg hs]
    have hlen : (padZeros (s + 1) (natChars n)).length ≥ s + 1 := by
      rw [padZeros_length]; omega
    have hdigits : ∀ c ∈ padZeros (s + 1) (natChars n), isDigitChar c = true :=
      padZeros_all_digits _ _
    have hips : ∀ c ∈ (padZeros (s + 1) (natChars n)).take
        ((padZeros (s + 1) (natChars n)).length - s), c ≠ '.' :=
      fun c hc =>
        digit_ne_low c (hdigits c (List.mem_of_mem_take hc)) _ (by decide)
    have hfps : ∀ c ∈ (padZeros (s + 1) (natChars n)).drop
        ((padZeros (s + 1) (natChars n)).length - s), c ≠ '.' :=
      fun c hc =>
        digit_ne_low c (hdigits c (List.mem_of_mem_drop hc)) _ (by decide)
    have h1 : splitOnChar '.'
        ('.' :: (padZeros (s + 1) (natChars n)).drop
          ((padZeros (s + 1) (natChars n)).length - s)) =
        [] :: [(padZeros (s + 1) (natChars n)).drop
          ((padZeros (s + 1) (natChars n)).length - s)] := by
      rw [splitOnChar_cons, if_pos rfl, splitOnChar_sep_free _ _ hfps]
    have hsplit := splitOnChar_chunk ('.' : Char) _ hips h1
    rw [List.append_nil] at hsplit
    unfold decFromCharsPos
    rw [hsplit]
    dsimp only
    have hTakeLen : ((padZeros (s + 1) (natChars n)).take
        ((padZeros (s + 1) (natChars n)).length - s)).length =
        (padZeros (s + 1) (natChars n)).length - s := by
      rw [List.length_take]; omega
    have hDropLen : ((padZeros (s + 1) (natChars n)).drop
        ((padZeros (s + 1) (natChars n)).length - s)).length = s := by
      rw [List.length_drop]; omega
    rw [if_neg (by
      simp only [Bool.or_eq_true, List.isEmpty_iff]
      rintro (h0 | h0)
      · have := congrArg List.length h0
        rw [hTakeLen] at this
        simp at this
        omega
      · have := congrArg List.length h0
        rw [hDropLen] at this
        simp at this
        omega)]
    rw [List.take_append_drop, natFromChars_padZeros, hDropLen]

theorem decBody_head_digit (n s : Nat) :
    ∃ c rest, decBody n s = c :: rest ∧ isDigitChar c = true := by
  by_cases hs : s = 0
  · subst hs
    unfold decBody
    dsimp only
    rw [if_pos rfl]
    exact exists_head_digit (padZeros_natChars_ne_nil 1 n)
      (padZeros_all_digits 1 n)
  · unfold decBody
    dsimp only
    rw [if_neg hs]
    have hlen : (padZeros (s + 1) (natChars n)).length ≥ s + 1 := by
      rw [padZeros_length]; omega
    have htne : (padZeros (s + 1) (natChars n)).take
        ((padZeros (s + 1) (natChars n)).length - s) ≠ [] := by
      intro h0
      have := congrArg List.length h0
      rw [List.length_take] at this
      simp at this
      omega
    obtain ⟨c, rest, hceq, hdig⟩ := exists_head_digit htne
      (fun c hc => padZeros_all_digits _ _ c (List.mem_of_mem_take hc))
    exact ⟨c, rest ++ '.' :: (padZeros (s + 1) (natChars n)).drop
      ((padZeros (s + 1) (natChars n)).length - s),
      by rw [hceq, List.cons_append], hdig⟩

theorem decFromChars_decChars (d : Dec) :
    decFromChars (decChars d) = some d := by
  unfold decChars
  by_cases hm : d.mant < 0
  · rw [if_pos hm]
    show decFromChars ('-' :: decBody d.mant.natAbs d.scale) = some d
    simp only [decFromChars, if_pos rfl]
    rw [decFromCharsPos_decBody]
    show (if ((d.mant.natAbs : Int) = 0) then none
      else some ⟨-(d.mant.natAbs : Int), d.scale⟩) = some d
    rw [if_neg (by omega : ¬((d.mant.natAbs : Int) = 0))]
    have hneg : -((d.mant.natAbs : Nat) : Int) = d.mant := by omega
    rw [hneg]
  · rw [if_neg hm]
    obtain ⟨c, rest, hbody, hcdig⟩ := decBody_head_digit d.mant.natAbs d.scale
    have hcne : c ≠ '-' := digit_ne_low c hcdig _ (by decide)
    rw [hbody]
    simp only [decFromChars, if_neg hcne]
    rw [← hbody, decFromCharsPos_decBody]
    have hpos : ((d.mant.natAbs : Nat) : Int) = d.mant := by omega
    rw [hpos]

/-- The `Year` cell as printed by `to_csv`: empty for NaN. -/
def yearCellChars (y : Option Int) : List Char :=
  match y with
  | none => []
  | some v => intChars v

/-- Parse a `Year` cell: empty reads back as NaN. -/
def yearCellParse (cs : List Char) : Option (Option Int) :=
  match cs with
  | [] => some none
  | c :: rest => (intFromChars (c :: rest)).map some

/-- A `Type` cell: empty for the NaN of an unknown category. -/
def optStrChars : Option String → List Char
  | none => []
  | some s => s.data

/-- Parse a `Type` cell: empty reads back as NaN. -/
def optStrParse (cs : List Char) : Option String :=
  if cs.isEmpty then none else some ⟨cs⟩

/-- The header row `to_csv` writes for the stumpage schema. -/
def headerChars : List Char :=
  ("Type,Time,Year,Quarter,Minimum,Average,Maximum").data

/-- One row's CSV cells, in schema order. -/
def rowCells (r : Row) : List (List Char) :=
  [optStrChars r.type, r.time.data, yearCellChars r.year, r.quarter.data,
   decChars r.minimum, decChars r.average, decChars r.maximum]

/-- `data.to_csv(index=False).encode("utf-8")` (line 338): a header row
then one comma-joined line per row, newline-separated; the characters
model the encoded code points. -/
def to_csv (rows : List Row) : List Char :=
  joinSep '\n' (headerChars :: rows.map (fun r => joinSep ',' (rowCells r)))

/-- Rebuild one row from the cells of one CSV line. -/
def parseRowCells (cells : List (List Char)) : Option Row :=
  match cells with
  | [tcell, timecell, ycell, qcell, mincell, avgcell, maxcell] =>
    match yearCellParse ycell, decFromChars mincell, decFromChars avgcell,
        decFromChars maxcell with
    | some y, some mn, some av, some mx =>
      if timecell.isEmpty || qcell.isEmpty then none
      else some ⟨optStrParse tcell, ⟨timecell⟩, y, ⟨qcell⟩, mn, av, mx⟩
    | _, _, _, _ => none
  | _ => none

/-- Parse CSV text back into rows: header line first, then one row per
line. -/
def read_csv (cs : List Char) : Option (List Row) :=
  match splitOnChar '\n' cs with
  | [] => none
  | header :: lines =>
    if header = headerChars then
      lines.mapM (fun line => parseRowCells (splitOnChar ',' line))
    else none

/-- A CSV-safe string cell: non-empty, and free of the comma and newline
separators (true of every value in the real schema; pandas would quote
otherwise). -/
def strCellSafe (s : String) : Bool :=
  !s.data.isEmpty && s.data.all (fun c => c ≠ ',' && c ≠ '\n')

/-- Row safety: the string cells (Type when present, Time, Quarter) are
non-empty and separator-free; the numeric cells are digits, point and
sign only, hence always safe. -/
def rowSafe (r : Row) : Bool :=
  (match r.type with
   | none => true
   | some s => strCellSafe s) &&
  strCellSafe r.time && strCellSafe r.quarter

theorem digit_safe {c : Char} (h : isDigitChar c = true) :
    c ≠ ',' ∧ c ≠ '\n' :=
  ⟨digit_ne_low c h _ (by decide), digit_ne_low c h _ (by decide)⟩

theorem mem_intChars_safe (v : Int) {c : Char} (hc : c ∈ intChars v) :
    c ≠ ',' ∧ c ≠ '\n' := by
  unfold intChars at hc
  by_cases hv : v < 0
  · rw [if_pos hv, List.mem_cons] at hc
    rcases hc with rfl | hc
    · exact ⟨by decide, by decide⟩
    · exact digit_safe (natChars_all_digits _ c hc)
  · rw [if_neg hv] at hc
    exact digit_safe (natChars_all_digits _ c hc)

theorem mem_decBody (n s : Nat) {c : Char} (hc : c ∈ decBody n s) :
    isDigitChar c = true ∨ c = '.' := by
  unfold decBody at hc
  dsimp only at hc
  by_cases hs : s = 0
  · rw [if_pos hs] at hc
    exact Or.inl (padZeros_all_digits _ _ c hc)
  · rw [if_neg hs] at hc
    rw [List.mem_append] at hc
    rcases hc with hc | hc
    · exact Or.inl (padZeros_all_digits _ _ c (List.mem_of_mem_take hc))
    · rw [List.mem_cons] at hc
      rcases hc with rfl | hc
      · exact Or.inr rfl
      · exact Or.inl (padZeros_all_digits _ _ c (List.mem_of_mem_drop hc))

theorem mem_decChars_safe (d : Dec) {c : Char} (hc : c ∈ decChars d) :
    c ≠ ',' ∧ c ≠ '\n' := by
  unfold decChars at hc
  by_cases hm : d.mant < 0
  · rw [if_pos hm, List.mem_cons] at hc
    rcases hc with rfl | hc
    · exact ⟨by decide, by decide⟩
    · rcases mem_decBody _ _ hc with h | rfl
      · exact digit_safe h
      · exact ⟨by decide, by decide⟩
  · rw [if_neg hm] at hc
    rcases mem_decBody _ _ hc with h | rfl
    · exact digit_safe h
    · exact ⟨by decide, by decide⟩

theorem strCellSafe_free {s : String} (h : strCellSafe s = true) :
    ∀ c ∈ s.data, c ≠ ',' ∧ c ≠ '\n' := by
  unfold strCellSafe at h
  rw [Bool.and_eq_true, List.all_eq_true] at h
  intro c hc
  have := h.2 c hc
  simp only [Bool.and_eq_true, decide_eq_true_eq] at this
  exact this

theorem rowCells_sep_free (r : Row) (hr : rowSafe r = true) :
    ∀ cell ∈ rowCells r, ∀ c ∈ cell, c ≠ ',' ∧ c ≠ '\n' := by
  unfold rowSafe at hr
  rw [Bool.and_eq_true, Bool.and_eq_true] at hr
  obtain ⟨⟨htype, htime⟩, hquarter⟩ := hr
  intro cell hcell c hc
  unfold rowCells at hcell
  simp only [List.mem_cons, List.not_mem_nil, or_false] at hcell
  rcases hcell with rfl | rfl | rfl | rfl | rfl | rfl | rfl
  · cases ht : r.type with
    | none => rw [ht] at hc; cases hc
    | some s =>
      rw [ht] at hc htype
      exact strCellSafe_free htype c hc
  · exact strCellSafe_free htime c hc
  · cases hy : r.year with
    | none => rw [hy] at hc; cases hc
    | some v =>
      rw [hy] at hc
      exact mem_intChars_safe v hc
  · exact strCellSafe_free hquarter c hc
  · exact mem_decChars_safe _ hc
  · exact mem_decChars_safe _ hc
  · exact mem_decChars_safe _ hc

theorem intChars_ne_nil (v : Int) : intChars v ≠ [] := by
  unfold intChars
  by_cases hv : v < 0
  · rw [if_pos hv]; simp
  · rw [if_neg hv]; exact natChars_ne_nil _

theorem yearCellParse_yearCellChars (y : Option Int) :
    yearCellParse (yearCellChars y) = some y := by
  cases y with
  | none => rfl
  | some v =>
    show yearCellParse (intChars v) = some (some v)
    obtain ⟨c, rest, hceq⟩ : ∃ c rest, intChars v = c :: rest := by
      cases h : intChars v with
      | nil => exact absurd h (intChars_ne_nil v)
      | cons c rest => exact ⟨c, rest, rfl⟩
    rw [hceq]
    show (intFromChars (c :: rest)).map some = some (some v)
    rw [← hceq, intFromChars_intChars]
    rfl

theorem optStrParse_optStrChars (t : Option String)
    (ht : (match t with
           | none => true
           | some s => strCellSafe s) = true) :
    optStrParse (optStrChars t) = t := by
  cases t with
  | none => rfl
  | some s =>
    have ht' : strCellSafe s = true := ht
    have h1 : s.data.isEmpty = false := by
      unfold strCellSafe at ht'
      rw [Bool.and_eq_true] at ht'
      simpa using ht'.1
    show optStrParse s.data = some s
    unfold optStrParse
    rw [if_neg (by rw [h1]; simp)]

theorem parseRowCells_rowCells (r : Row) (hr : rowSafe r = true) :
    parseRowCells (rowCells r) = some r := by
  have hr' := hr
  unfold rowSafe at hr'
  rw [Bool.and_eq_true, Bool.and_eq_true] at hr'
  obtain ⟨⟨htype, htime⟩, hquarter⟩ := hr'
  have h1 : r.time.data.isEmpty = false := by
    unfold strCellSafe at htime
    rw [Bool.and_eq_true] at htime
    simpa using htime.1
  have h2 : r.quarter.data.isEmpty = false := by
    unfold strCellSafe at hquarter
    rw [Bool.and_eq_true] at hquarter
    simpa using hquarter.1
  unfold rowCells parseRowCells
  dsimp only
  rw [yearCellParse_yearCellChars, decFromChars_decChars,
    decFromChars_decChars, decFromChars_decChars]
  dsimp only
  rw [if_neg (by rw [h1, h2]; simp)]
  rw [optStrParse_optStrChars r.type htype]

theorem mapM_parse_rows (rows : List Row)
    (hsafe : ∀ r ∈ rows, rowSafe r = true) :
    (rows.map (fun r => joinSep ',' (rowCells r))).mapM
      (fun line => parseRowCells (splitOnChar ',' line)) = some rows := by
  induction rows with
  | nil => rfl
  | cons r rest ih =>
    rw [List.map_cons, List.mapM_cons]
    have hsplit : splitOnChar ',' (joinSep ',' (rowCells r)) = rowCells r :=
      splitOnChar_joinSep _ _ (by simp [rowCells])
        (fun p hp c hc =>
          (rowCells_sep_free r (hsafe r (List.mem_cons_self _ _)) p hp c hc).1)
    rw [hsplit, parseRowCells_rowCells r (hsafe r (List.mem_cons_self _ _)),
      ih (fun x hx => hsafe x (List.mem_cons_of_mem r hx))]
    rfl

/-- Shared helper: CSV round trip at the rows level. -/
theorem read_csv_to_csv (rows : List Row)
    (hsafe : ∀ r ∈ rows, rowSafe r = true) :
    read_csv (to_csv rows) = some rows := by
  unfold to_csv read_csv
  have hlinefree : ∀ p ∈ headerChars ::
      rows.map (fun r => joinSep ',' (rowCells r)), ∀ c ∈ p, c ≠ '\n' := by
    intro p hp c hc
    rw [List.mem_cons] at hp
    rcases hp with rfl | hp
    · have hh : ∀ c ∈ headerChars, c ≠ '\n' := by decide
      exact hh c hc
    · obtain ⟨r, hr, rfl⟩ := List.mem_map.1 hp
      rcases mem_joinSep hc with rfl | ⟨cell, hcell, hccell⟩
      · decide
      · exact (rowCells_sep_free r (hsafe r hr) cell hcell c hccell).2
  rw [splitOnChar_joinSep _ _ (by simp) hlinefree]
  dsimp only
  rw [if_pos rfl]
  exact mapM_parse_rows rows hsafe

/-- Line 337: the download button is rendered only when `data` is not
`None` and has at least one row. -/
def download_offered (data : Option Frame) : Bool :=
  match data with
  | none => false
  | some f => decide (f.rows.length > 0)

/-- C7: serializing a FilteredView's rows to CSV (UTF-8 code points,
header row, one row per Record) and parsing the CSV back yields the same
rows — same values, same count — for rows whose string cells are
non-empty and separator-free (always true of the real schema); and the
export is offered exactly when the FilteredView exists and is
non-empty. -/
theorem csv_round_trip_and_offer (rows : List Row) (data : Option Frame)
    (hsafe : ∀ r ∈ rows, rowSafe r = true) :
    read_csv (to_csv rows) = some rows ∧
    (download_offered data = true ↔ ∃ f, data = some f ∧ f.rows ≠ []) := by
  refine ⟨read_csv_to_csv rows hsafe, ?_⟩
  cases data with
  | none => simp [download_offered]
  | some f =>
    simp only [download_offered, decide_eq_true_eq]
    constructor
    · intro h
      exact ⟨f, rfl, by intro h0; rw [h0] at h; simp at h⟩
    · rintro ⟨g, hg, hne⟩
      injection hg with hg
      subst hg
      cases hf : f.rows with
      | nil => exact absurd hf hne
      | cons x xs => simp

/-- Witness for C7 at a concrete FilteredView. -/
theorem csv_round_trip_and_offer_witness :
    read_csv (to_csv [rowA, rowB, rowD]) = some [rowA, rowB, rowD] ∧
    download_offered (some ⟨schemaCols, [rowA],
      uniqueTimeSorted [rowA]⟩) = true := by
  have h := csv_round_trip_and_offer [rowA, rowB, rowD]
    (some ⟨schemaCols, [rowA], uniqueTimeSorted [rowA]⟩) (by decide)
  exact ⟨h.1, h.2.2 ⟨_, rfl, by decide⟩⟩
